import Mathlib

/-!
Verification development for the ETS2 DLC Tools repository.

The Python sources are shallowly embedded: Python `str` values become Lean
`String`, Python string primitives (`lower`, `startswith`, `endswith`,
`split`) are re-implemented structurally over the underlying character
lists, directories become lists of filenames, dictionaries become
association lists, and the mutable-object semantics of the configuration
store is captured by an explicit address-indexed heap.  Timestamps
(`time.time()` floats) are embedded as rationals.
-/

/-! ## Python string primitives -/

/-- Python `str.lower()` restricted to its ASCII behaviour (all filenames,
configuration keys and translation keys handled by the program are ASCII). -/
def pyLower (s : String) : String := ⟨s.data.map Char.toLower⟩

/-- Character-list prefix test backing Python `str.startswith`. -/
def prefixCheck : List Char → List Char → Bool
  | [], _ => true
  | _ :: _, [] => false
  | p :: ps, c :: cs => p == c && prefixCheck ps cs

/-- Character-list suffix test backing Python `str.endswith`. -/
def suffixCheck (p s : List Char) : Bool := prefixCheck p.reverse s.reverse

/-- Python `s.startswith(pre)`. -/
def pyStartsWith (s pre : String) : Bool := prefixCheck pre.data s.data

/-- Python `s.endswith(suf)`. -/
def pyEndsWith (s suf : String) : Bool := suffixCheck suf.data s.data

/-- Split a character list at every occurrence of the character `sep`;
backs Python `str.split(sep)` for a one-character separator. -/
def splitAtChar (sep : Char) : List Char → List (List Char)
  | [] => [[]]
  | c :: cs =>
    if c = sep then [] :: splitAtChar sep cs
    else match splitAtChar sep cs with
      | [] => [[c]]
      | p :: ps => (c :: p) :: ps

/-- Python `s.split('.')`, as used for dot-path configuration and
translation keys. -/
def pySplitDot (s : String) : List String :=
  (splitAtChar '.' s.data).map (fun l => ⟨l⟩)

/-- Python-style lexicographic `<=` on character lists, comparing by code
point exactly as CPython compares `str` values. -/
def lexLe : List Char → List Char → Bool
  | [], _ => true
  | _ :: _, [] => false
  | a :: as, b :: bs =>
    if a.toNat < b.toNat then true
    else if b.toNat < a.toNat then false
    else lexLe as bs

/-- Python `a <= b` on strings. -/
def pyStrLe (a b : String) : Bool := lexLe a.data b.data

/-- Insert one element into a list assumed sorted under `pyStrLe`. -/
def insertName (x : String) : List String → List String
  | [] => [x]
  | y :: ys => if pyStrLe x y then x :: y :: ys else y :: insertName x ys

/-- Stable sort of a filename list under `pyStrLe`; models Python
`sorted(...)` on a list of strings (both are stable and use the same
lexicographic code-point order, hence agree pointwise). -/
def pySorted : List String → List String
  | [] => []
  | x :: xs => insertName x (pySorted xs)

/-! ## DLC discovery (MainWindow.check_and_display_dlcs /
refresh_uninstalled_dlc / the four move operations)

The directory-scan filter appears verbatim four times in
`src/ui/MainWindow.py`:
`if file.lower().startswith("dlc") and file.lower().endswith(".scs")`. -/

/-- DLC discovery predicate applied to a bare filename. -/
def is_dlc_file (f : String) : Bool :=
  pyStartsWith (pyLower f) "dlc" && pyEndsWith (pyLower f) ".scs"

/-- Qualifying filenames of a directory listing, sorted alphabetically for
display (`for file in sorted(dlc_files)`), each list entry carrying the bare
filename as its payload. -/
def displayed_dlc_files (files : List String) : List String :=
  pySorted (files.filter is_dlc_file)

/-! ## Batch move operations (MainWindow, lines 1215-1571)

A directory is a list of (distinct) filenames.  `MoveState` is the state of
one batch move loop: the source directory, the destination directory, the
`moved_files` accumulator of the loop, and a ghost field `overwritten`
recording destination files that were replaced by a move (observable effect
of `shutil.move` onto an existing destination path).

`checkedStep` is the loop body used by `uninstall_selected_dlcs`,
`install_selected_dlc` and `install_all_dlcs`: it skips a file whose source
path no longer exists, skips a file whose destination path already exists,
and otherwise performs the move; any exception from the move itself
(modelled by the error oracle `err`) is caught and the loop continues.

`uncheckedStep` is the loop body of `uninstall_all_dlcs`, which performs
`shutil.move` with no existence checks: a missing source raises
`FileNotFoundError` (caught, file not counted); an existing destination file
is replaced and the file is counted as moved. -/

structure MoveState where
  src : List String
  dst : List String
  moved : List String
  overwritten : List String
  deriving Repr, DecidableEq

/-- Successful `shutil.move` onto a fresh destination path. -/
def doMove (ms : MoveState) (name : String) : MoveState :=
  ⟨ms.src.erase name, ms.dst ++ [name], ms.moved ++ [name], ms.overwritten⟩

/-- Successful `shutil.move` onto an existing destination path: the
destination file is replaced (`os.rename` / copy-over semantics). -/
def overwriteMove (ms : MoveState) (name : String) : MoveState :=
  ⟨ms.src.erase name, ms.dst, ms.moved ++ [name], ms.overwritten ++ [name]⟩

/-- Loop body with the two existence checks (uninstall-selected,
install-selected, install-all). -/
def checkedStep (err : String → Bool) (ms : MoveState) (name : String) : MoveState :=
  if name ∈ ms.src then
    if name ∈ ms.dst then ms
    else if err name then ms
    else doMove ms name
  else ms

/-- Loop body of uninstall-all: bare `shutil.move` in a try/except. -/
def uncheckedStep (err : String → Bool) (ms : MoveState) (name : String) : MoveState :=
  if name ∈ ms.src then
    if err name then ms
    else if name ∈ ms.dst then overwriteMove ms name
    else doMove ms name
  else ms

/-- Run a batch move loop over its candidate list; each per-file exception
is caught inside the body, so the loop always processes every candidate. -/
def runMoves (stp : MoveState → String → MoveState) :
    List String → MoveState → MoveState
  | [], ms => ms
  | c :: cs, ms => runMoves stp cs (stp ms c)

/-- Error oracle for a run in which no move raises an unexpected exception. -/
def noErr : String → Bool := fun _ => false

/-- Filesystem state seen by the four operations: whether the configured
game path resolves to an existing directory, whether the `temp_dlcs`
subfolder exists, the regular files directly in the game directory (the
`temp_dlcs` folder itself is tracked separately and never matches the DLC
filename pattern), and the files in `temp_dlcs`. -/
structure FsState where
  gameValid : Bool
  tempExists : Bool
  game : List String
  temp : List String
  deriving Repr, DecidableEq

/-- Outcome of one operation: the new filesystem state, the `moved_files`
list reported to the user, and the ghost list of overwritten destination
files. -/
structure OpResult where
  fs : FsState
  moved : List String
  overwritten : List String
  deriving Repr, DecidableEq

/-- Model of `os.makedirs(temp_dir)` guarded by `os.path.exists`: creates
the (empty) `temp_dlcs` subfolder when absent. -/
def mkTempDir (st : FsState) : FsState :=
  if st.tempExists then st else { st with tempExists := true, temp := [] }

/-- MainWindow.uninstall_all_dlcs (lines 1215-1275): resolve game path,
create `temp_dlcs`, scan for qualifying files, confirm (`yes`), then move
every qualifying file with `shutil.move` and no per-file existence checks. -/
def uninstall_all_dlcs (err : String → Bool) (yes : Bool) (st : FsState) : OpResult :=
  if st.gameValid = false then ⟨st, [], []⟩
  else
    let st1 := mkTempDir st
    let dlc_files := st1.game.filter is_dlc_file
    if dlc_files.isEmpty then ⟨st1, [], []⟩
    else if yes = false then ⟨st1, [], []⟩
    else
      let ms := runMoves (uncheckedStep err) dlc_files ⟨st1.game, st1.temp, [], []⟩
      ⟨{ st1 with game := ms.src, temp := ms.dst }, ms.moved, ms.overwritten⟩

/-- MainWindow.uninstall_selected_dlcs (lines 1277-1358): move the selected
filenames from the game directory to `temp_dlcs`, with source- and
destination-existence checks per file. -/
def uninstall_selected_dlcs (err : String → Bool) (yes : Bool)
    (selected : List String) (st : FsState) : OpResult :=
  if st.gameValid = false then ⟨st, [], []⟩
  else if selected.isEmpty then ⟨st, [], []⟩
  else
    let st1 := mkTempDir st
    if yes = false then ⟨st1, [], []⟩
    else
      let ms := runMoves (checkedStep err) selected ⟨st1.game, st1.temp, [], []⟩
      ⟨{ st1 with game := ms.src, temp := ms.dst }, ms.moved, ms.overwritten⟩

/-- MainWindow.install_selected_dlc (lines 1414-1495): move the selected
filenames from `temp_dlcs` back to the game directory, with source- and
destination-existence checks per file. -/
def install_selected_dlc (err : String → Bool) (yes : Bool)
    (selected : List String) (st : FsState) : OpResult :=
  if st.gameValid = false then ⟨st, [], []⟩
  else if st.tempExists = false then ⟨st, [], []⟩
  else if selected.isEmpty then ⟨st, [], []⟩
  else if yes = false then ⟨st, [], []⟩
  else
    let ms := runMoves (checkedStep err) selected ⟨st.temp, st.game, [], []⟩
    ⟨{ st with game := ms.dst, temp := ms.src }, ms.moved, ms.overwritten⟩

/-- MainWindow.install_all_dlcs (lines 1497-1571): move every qualifying
file of `temp_dlcs` back to the game directory, with source- and
destination-existence checks per file. -/
def install_all_dlcs (err : String → Bool) (yes : Bool) (st : FsState) : OpResult :=
  if st.gameValid = false then ⟨st, [], []⟩
  else if st.tempExists = false then ⟨st, [], []⟩
  else
    let dlc_files := st.temp.filter is_dlc_file
    if dlc_files.isEmpty then ⟨st, [], []⟩
    else if yes = false then ⟨st, [], []⟩
    else
      let ms := runMoves (checkedStep err) dlc_files ⟨st.temp, st.game, [], []⟩
      ⟨{ st with game := ms.dst, temp := ms.src }, ms.moved, ms.overwritten⟩

/-! ## JSON values and the configuration store (src/config.py)

A parsed JSON document is a `JValue`; a JSON object is an association list
of string keys (Python dicts preserve insertion order and have unique
keys).  `merge_config` is the value-level meaning of `Config.merge_config`
(lines 134-145).  Because Python dictionaries are mutable heap objects and
`Config` manipulates them through shallow copies, an explicit heap model
(`Heap`, `ConfigState`) mirrors the object graph: `dict.copy()` shares the
nested dict objects, and in-place updates through a shared reference are
visible from every alias. -/

inductive JValue where
  | null
  | bool (b : Bool)
  | num (n : Int)
  | str (s : String)
  | arr (xs : List JValue)
  | obj (kvs : List (String × JValue))
  deriving Repr

/-- Python `d[k]` lookup on an (insertion-ordered) dict. -/
def lookupKey : List (String × JValue) → String → Option JValue
  | [], _ => none
  | (k, v) :: rest, key => if k = key then some v else lookupKey rest key

/-- Python `d[k] = v`: replaces the value in place for an existing key,
appends a new entry otherwise. -/
def setKey : List (String × JValue) → String → JValue → List (String × JValue)
  | [], key, v => [(key, v)]
  | (k, w) :: rest, key, v =>
    if k = key then (k, v) :: rest else (k, w) :: setKey rest key v

/-- Top-level entries of the `default_config` literal (config.py lines
21-53). -/
def default_config_items : List (String × JValue) :=
  [("app", .obj [("name", .str "ETS2 DLC Tools"), ("version", .str "1.0.0"),
      ("debug", .bool false)]),
   ("window", .obj [("width", .num 1200), ("height", .num 800), ("x", .num 100),
      ("y", .num 100), ("maximized", .bool false)]),
   ("logging", .obj [("level", .str "INFO"), ("file", .str "logs/app.log"),
      ("max_size", .num 1048576), ("backup_count", .num 5)]),
   ("dlc", .obj [("game_path", .str ""), ("mods_path", .str ""),
      ("backup_path", .str "backups"), ("auto_backup", .bool true)]),
   ("ui", .obj [("theme", .str "light"), ("language", .str "zh_CN"),
      ("font_size", .num 12), ("show_toolbar", .bool true),
      ("show_statusbar", .bool true)])]

/-- The `default_config` literal as a JSON value. -/
def default_config : JValue := .obj default_config_items

mutual

/-- Config.merge_config (lines 134-145), at the level of values: if either
argument is not a dict the custom value wins; otherwise every custom entry
is folded into the default dict, recursing when both sides hold dicts. -/
def merge_config : JValue → JValue → JValue
  | .obj d, .obj c => .obj (merge_items d c)
  | _, custom => custom
termination_by a b => sizeOf b

/-- The `for key, value in custom.items()` loop of merge_config. -/
def merge_items : List (String × JValue) → List (String × JValue) →
    List (String × JValue)
  | d, [] => d
  | d, (k, v) :: rest =>
    match lookupKey d k, v with
    | some (.obj dk), .obj vc =>
      merge_items (setKey d k (merge_config (.obj dk) (.obj vc))) rest
    | some _, _ => merge_items (setKey d k v) rest
    | none, _ => merge_items (setKey d k v) rest
termination_by d c => sizeOf c

end

/-- Value-level meaning of Config.load_config (lines 66-81): a missing file
or any read/parse failure falls back to the defaults; a parsed JSON object
document is merged over the defaults. -/
inductive ConfigDisk where
  | absent
  | unreadable
  | doc (kvs : List (String × JValue))

/-- The merged record returned by load_config, as a value. -/
def load_config : ConfigDisk → JValue
  | .absent => default_config
  | .unreadable => default_config
  | .doc kvs => merge_config default_config (.obj kvs)

/-! ### Heap model of the mutable Config object -/

/-- A Python value slot: either an immutable (non-dict) value or a
reference to a heap-allocated dict. -/
inductive HVal where
  | prim (v : JValue)
  | ref (a : Nat)
  deriving Repr

/-- The heap: address `a` holds the entry list of one dict object. -/
abbrev Heap := List (List (String × HVal))

/-- Entries of the dict at address `a`. -/
def heapGet (h : Heap) (a : Nat) : List (String × HVal) := h.getD a []

/-- Replace the entries of the dict at address `a`. -/
def heapSet (h : Heap) (a : Nat) (e : List (String × HVal)) : Heap := h.set a e

/-- Dict lookup on heap entries. -/
def lookupH : List (String × HVal) → String → Option HVal
  | [], _ => none
  | (k, v) :: rest, key => if k = key then some v else lookupH rest key

/-- Dict assignment on heap entries. -/
def setH : List (String × HVal) → String → HVal → List (String × HVal)
  | [], key, v => [(key, v)]
  | (k, w) :: rest, key, v =>
    if k = key then (k, v) :: rest else (k, w) :: setH rest key v

mutual

/-- Allocate a parsed JSON value: every JSON object becomes a fresh dict
object on the heap (as `json.load` and a dict literal do). -/
def allocTree (h : Heap) : JValue → Heap × HVal
  | .obj kvs =>
    let p := allocEntries h kvs
    (p.1 ++ [p.2], .ref p.1.length)
  | v => (h, .prim v)
termination_by v => sizeOf v

/-- Allocate the values of an entry list left to right. -/
def allocEntries (h : Heap) : List (String × JValue) → Heap × List (String × HVal)
  | [] => (h, [])
  | (k, v) :: rest =>
    let p := allocTree h v
    let q := allocEntries p.1 rest
    (q.1, (k, p.2) :: q.2)
termination_by es => sizeOf es

end

/-- Python `dict.copy()`: a new top-level dict sharing every nested value
(in particular every nested dict object). -/
def shallowCopy (h : Heap) (a : Nat) : Heap × Nat :=
  (h ++ [heapGet h a], h.length)

/-- Heap-level Config.merge_config, merging a freshly parsed document into
the dict at `dAddr`: when both sides hold dicts the shared nested dict at
`dAddr` is merged IN PLACE (`default[key] = merge_config(default[key],
value)` returns the same object), otherwise the custom value is assigned. -/
def mergeEntries (h : Heap) (dAddr : Nat) : List (String × JValue) → Heap
  | [] => h
  | (k, v) :: rest =>
    match lookupH (heapGet h dAddr) k, v with
    | some (.ref da), .obj vkvs =>
      mergeEntries (mergeEntries h da vkvs) dAddr rest
    | some (.ref _), _ =>
      let p := allocTree h v
      mergeEntries (heapSet p.1 dAddr (setH (heapGet p.1 dAddr) k p.2)) dAddr rest
    | some (.prim _), _ =>
      let p := allocTree h v
      mergeEntries (heapSet p.1 dAddr (setH (heapGet p.1 dAddr) k p.2)) dAddr rest
    | none, _ =>
      let p := allocTree h v
      mergeEntries (heapSet p.1 dAddr (setH (heapGet p.1 dAddr) k p.2)) dAddr rest
termination_by c => sizeOf c

/-- The state of one Config object: the heap, the address of the stored
`self.default_config` dict, the `self.config` slot, and the value most
recently persisted by save_config (`none` if never saved). -/
structure ConfigState where
  heap : Heap
  defaultAddr : Nat
  config : HVal
  saved : Option JValue

mutual

/-- Read back the value of a heap slot (fuel-bounded; every state built by
the operations below is a finite tree, so `heap.length + 1` fuel always
suffices). -/
def reifyV : Nat → Heap → HVal → Option JValue
  | 0, _, _ => none
  | _ + 1, _, .prim v => some v
  | n + 1, h, .ref a => (reifyEntries n h (heapGet h a)).map .obj
termination_by n _ _ => (n, 0)

/-- Read back an entry list. -/
def reifyEntries : Nat → Heap → List (String × HVal) → Option (List (String × JValue))
  | _, _, [] => some []
  | n, h, (k, hv) :: rest =>
    match reifyV n h hv, reifyEntries n h rest with
    | some v, some vs => some ((k, v) :: vs)
    | _, _ => none
termination_by n _ es => (n, sizeOf es + 1)

end

/-- Config.save_config (lines 83-96): serializes the current record. -/
def save_config (st : ConfigState) : ConfigState :=
  { st with saved := reifyV (st.heap.length + 1) st.heap st.config }

/-- Config construction (lines 16-64): build the default literal (fresh
dict objects), then `self.config = self.load_config()`, which either
shallow-copies the defaults or merges the on-disk document over a shallow
copy of the defaults. -/
def config_construct (disk : ConfigDisk) : ConfigState :=
  let p := allocEntries [] default_config_items
  let h2 := p.1 ++ [p.2]
  let dAddr := p.1.length
  match disk with
  | .absent =>
    let q := shallowCopy h2 dAddr
    ⟨q.1, dAddr, .ref q.2, none⟩
  | .unreadable =>
    let q := shallowCopy h2 dAddr
    ⟨q.1, dAddr, .ref q.2, none⟩
  | .doc kvs =>
    let q := shallowCopy h2 dAddr
    ⟨mergeEntries q.1 q.2 kvs, dAddr, .ref q.2, none⟩

/-- Config.reset_to_default (lines 147-151): `self.config =
self.default_config.copy()` (a SHALLOW copy of the stored default dict,
sharing its nested section dicts), then save. -/
def reset_to_default (st : ConfigState) : ConfigState :=
  let q := shallowCopy st.heap st.defaultAddr
  save_config { st with heap := q.1, config := .ref q.2 }

/-- The `for key in keys[:-1]` walk of Config.set (lines 110-132): descends
through existing entries, creating fresh empty dicts for missing keys; a
non-dict on the way raises `TypeError`, caught by the surrounding
try/except (result `none`). -/
def setWalk (h : Heap) : HVal → List String → Heap × Option Nat
  | .ref a, [] => (h, some a)
  | .prim _, [] => (h, none)
  | .prim _, _ :: _ => (h, none)
  | .ref a, k :: rest =>
    match lookupH (heapGet h a) k with
    | some hv => setWalk h hv rest
    | none =>
      let na := h.length
      let h1 := h ++ [[]]
      let h2 := heapSet h1 a (setH (heapGet h1 a) k (.ref na))
      setWalk h2 (.ref na) rest

/-- Config.set (lines 110-132): walk the dot path, assign the final key,
then save immediately; returns the success flag. -/
def config_set (st : ConfigState) (key_path : String) (v : JValue) :
    ConfigState × Bool :=
  let keys := pySplitDot key_path
  let w := setWalk st.heap st.config keys.dropLast
  match w.2 with
  | none => ({ st with heap := w.1 }, false)
  | some a =>
    let p := allocTree w.1 v
    let h3 := heapSet p.1 a (setH (heapGet p.1 a) (keys.getLastD "") p.2)
    (save_config { st with heap := h3 }, true)

/-- The `for key in keys` walk of Config.get (lines 98-108): `KeyError` or
`TypeError` along the way yields `none`. -/
def getWalk (h : Heap) : HVal → List String → Option HVal
  | cur, [] => some cur
  | .prim _, _ :: _ => none
  | .ref a, k :: rest =>
    match lookupH (heapGet h a) k with
    | some hv => getWalk h hv rest
    | none => none

/-- Config.get (lines 98-108): resolve a dot path against the current
record, returning the (reified) value, or `default` on failure. -/
def config_get (st : ConfigState) (key_path : String) (default : Option JValue) :
    Option JValue :=
  match getWalk st.heap st.config (pySplitDot key_path) with
  | some hv => reifyV (st.heap.length + 1) st.heap hv
  | none => default

/-! ## Localization service (src/language_manager.py)

A translation catalog is a parsed JSON value.  `load_language` models
LanguageManager.load_language (lines 46-80) against a filesystem oracle for
the language-files directory; `tr` models LanguageManager.tr (lines 82-120)
with no format arguments (`kwargs` empty, so the `value.format(**kwargs)`
branch is not taken and a string leaf is returned unchanged). -/

/-- Mutable state of the language manager: the active language code and the
active catalog. -/
structure LMState where
  current_language : String
  translations : JValue

/-- The `supported_languages` dict literal (lines 38-41). -/
def supported_languages : List (String × String) :=
  [("zh_CN", "中文"), ("en", "English")]

/-- Outcome of opening and parsing `<code>.json`: the file may be missing,
unreadable/unparsable (any exception of the try block), or a parsed JSON
document. -/
inductive LangFile where
  | missing
  | invalid
  | ok (catalog : JValue)

/-- LanguageManager.load_language: reject unsupported codes; a missing or
invalid file fails leaving the state untouched; on success the catalog and
the current language code are replaced together. -/
def load_language (fs : String → LangFile) (st : LMState) (code : String) :
    Bool × LMState :=
  if (supported_languages.map Prod.fst).contains code = false then (false, st)
  else match fs code with
    | .missing => (false, st)
    | .invalid => (false, st)
    | .ok catalog => (true, ⟨code, catalog⟩)

mutual

/-- Python `str(value)` on a parsed JSON value (`True`/`False`/`None`
spelling, `repr` for elements of containers). -/
def pyStr : JValue → String
  | .null => "None"
  | .bool true => "True"
  | .bool false => "False"
  | .num n => toString n
  | .str s => s
  | .arr xs => "[" ++ pyReprList xs ++ "]"
  | .obj kvs => "\x7b" ++ pyReprObj kvs ++ "\x7d"
termination_by v => (sizeOf v, 0)

/-- Python `repr(value)`: strings are quoted, everything else renders as
`str` does. -/
def pyRepr : JValue → String
  | .str s => "'" ++ s ++ "'"
  | v => pyStr v
termination_by v => (sizeOf v, 1)

/-- Comma-separated `repr` rendering of a list body. -/
def pyReprList : List JValue → String
  | [] => ""
  | [x] => pyRepr x
  | x :: xs => pyRepr x ++ ", " ++ pyReprList xs
termination_by xs => (sizeOf xs, 0)

/-- Comma-separated `'key': repr(value)` rendering of a dict body. -/
def pyReprObj : List (String × JValue) → String
  | [] => ""
  | [(k, v)] => "'" ++ k ++ "': " ++ pyRepr v
  | (k, v) :: rest => "'" ++ k ++ "': " ++ pyRepr v ++ ", " ++ pyReprObj rest
termination_by kvs => (sizeOf kvs, 0)

end

/-- Python `default or str(value)` for an optional string default: `None`
and the empty string are falsy. -/
def pyOrStr (d : Option String) (v : JValue) : String :=
  match d with
  | some s => if s = "" then pyStr v else s
  | none => pyStr v

/-- The `for k in keys: value = value[k]` walk of tr: a missing key
(`KeyError`) or indexing a non-dict (`TypeError`) fails. -/
def trWalk : JValue → List String → Option JValue
  | v, [] => some v
  | .obj kvs, k :: rest =>
    match lookupKey kvs k with
    | some v => trWalk v rest
    | none => none
  | _, _ :: _ => none

/-- LanguageManager.tr with no format arguments: empty key returns
`default or ""`; a resolved string leaf is returned; a resolved non-string
value yields `default or str(value)`; an unresolved path yields the default
if one was supplied (even a falsy one), else the raw key. -/
def tr (st : LMState) (key : String) (default : Option String) : String :=
  if key = "" then default.getD ""
  else
    match trWalk st.translations (pySplitDot key) with
    | some (.str s) => s
    | some v => pyOrStr default v
    | none =>
      match default with
      | some d => d
      | none => key

/-! ## Development hot-reload handler (src/hot_reload.py)

`CodeChangeHandler` is modelled as a pure state machine over a sequence of
timestamped filesystem events.  `time.time()` floats become rationals.  The
`restart_callback` is `HotReloader.trigger_restart`, which sets the
`should_restart` flag; the ghost counter `signals` counts callback
invocations (each one logs and requests a restart). -/

/-- Index of the last occurrence of a character (Python `str.rfind`). -/
def rfindChar (c : Char) (cs : List Char) : Option Nat :=
  match cs.reverse.findIdx? (· == c) with
  | none => none
  | some j => some (cs.length - 1 - j)

/-- Python `pathlib.PurePath.suffix` of a filename: the final component
from the last dot on, empty for no dot, a leading dot or a trailing dot. -/
def pySuffix (name : String) : String :=
  let cs := name.data
  match rfindChar '.' cs with
  | none => ""
  | some i => if 0 < i ∧ i < cs.length - 1 then ⟨cs.drop i⟩ else ""

/-- Nonempty separator-delimited components of a path, standing in for
`pathlib.Path(path).parts` (the root marker of an absolute path is never a
watched directory name, so dropping it is immaterial here). -/
def pyParts (path : String) : List String :=
  ((splitAtChar '/' path.data).map (fun l => (⟨l⟩ : String))).filter (fun s => s ≠ "")

/-- Final path component. -/
def pyName (path : String) : String := (pyParts path).getLastD ""

/-- Default watched extensions (line 39). -/
def default_extensions : List String := [".py", ".json", ".ui"]

/-- Default ignored directories (line 40). -/
def default_ignore_dirs : List String :=
  ["__pycache__", ".git", "logs", "Output", ".idea", "venv", "env"]

/-- CodeChangeHandler.should_ignore (lines 45-58): ignore a path lying in
an ignored directory or whose suffix is not watched. -/
def should_ignore (extensions ignore_dirs : List String) (path : String) : Bool :=
  ignore_dirs.any (fun d => (pyParts path).contains d)
    || !(extensions.contains (pySuffix (pyName path)))

/-- Kind of a watchdog filesystem event. -/
inductive EventKind where
  | created
  | modified
  | deleted
  deriving Repr, DecidableEq

/-- One delivered filesystem event. -/
structure FsEvent where
  kind : EventKind
  is_directory : Bool
  src_path : String
  time : ℚ

/-- Handler state: the per-path `last_modified` dict, the reloader's
pending `should_restart` flag, and the ghost count of restart signals
(calls of `restart_callback`). -/
structure HRState where
  last_modified : List (String × ℚ)
  pending_restart : Bool
  signals : Nat

/-- Lookup in the `last_modified` dict. -/
def lookupTime : List (String × ℚ) → String → Option ℚ
  | [], _ => none
  | (k, v) :: rest, key => if k = key then some v else lookupTime rest key

/-- Assignment in the `last_modified` dict. -/
def setTime : List (String × ℚ) → String → ℚ → List (String × ℚ)
  | [], key, v => [(key, v)]
  | (k, w) :: rest, key, v =>
    if k = key then (k, v) :: rest else (k, w) :: setTime rest key v

/-- The 0.5-second debounce window (line 42). -/
def debounce_seconds : ℚ := 0.5

/-- CodeChangeHandler.on_modified (lines 60-83): per-path debounce, then
record the time and signal a restart. -/
def on_modified (extensions ignore_dirs : List String) (st : HRState)
    (e : FsEvent) : HRState :=
  if e.is_directory then st
  else if should_ignore extensions ignore_dirs e.src_path then st
  else
    let last_time := (lookupTime st.last_modified e.src_path).getD 0
    if e.time - last_time < debounce_seconds then st
    else ⟨setTime st.last_modified e.src_path e.time, true, st.signals + 1⟩

/-- CodeChangeHandler.on_created (lines 85-96): no debounce. -/
def on_created (extensions ignore_dirs : List String) (st : HRState)
    (e : FsEvent) : HRState :=
  if e.is_directory then st
  else if should_ignore extensions ignore_dirs e.src_path then st
  else ⟨st.last_modified, true, st.signals + 1⟩

/-- CodeChangeHandler.on_deleted (lines 98-109): no debounce. -/
def on_deleted (extensions ignore_dirs : List String) (st : HRState)
    (e : FsEvent) : HRState :=
  if e.is_directory then st
  else if should_ignore extensions ignore_dirs e.src_path then st
  else ⟨st.last_modified, true, st.signals + 1⟩

/-- Dispatch one event to its handler method. -/
def handle_event (extensions ignore_dirs : List String) (st : HRState)
    (e : FsEvent) : HRState :=
  match e.kind with
  | .modified => on_modified extensions ignore_dirs st e
  | .created => on_created extensions ignore_dirs st e
  | .deleted => on_deleted extensions ignore_dirs st e

/-- Deliver a sequence of events in order. -/
def runEvents (extensions ignore_dirs : List String) :
    List FsEvent → HRState → HRState
  | [], st => st
  | e :: es, st => runEvents extensions ignore_dirs es
      (handle_event extensions ignore_dirs st e)

/-- Fresh handler state (lines 41-43). -/
def initHR : HRState := ⟨[], false, 0⟩

/-! ## DLC image prefetch tool (src/download_dlc_images.py)

One metadata record is reduced to the three fields the script reads
(`dict.get` with defaults).  The network is an oracle from URL to download
success; a failed download is modelled as leaving no file behind (the
failure surfaces before the destination file is written). -/

/-- One record of dlcs_info.json, as consumed by the script. -/
structure DlcRecord where
  name : Option String
  dlc_id : Option Int
  header_image : Option String

/-- Destination filename `f"{dlc_id}.jpg"` (dlc_id defaulting to 0). -/
def record_filename (r : DlcRecord) : String := toString (r.dlc_id.getD 0) ++ ".jpg"

/-- Tool state: files present in `resources/dlc_images` and the three
tallies. -/
structure DLState where
  files : List String
  success : Nat
  failed : Nat
  skipped : Nat
  deriving Repr, DecidableEq

/-- The per-record body of the download loop (lines 89-116): an empty URL
or an existing destination file is a skip; otherwise the download either
writes the file and counts a success, or counts a failure. -/
def process_record (netOk : String → Bool) (st : DLState) (r : DlcRecord) : DLState :=
  let header_image := r.header_image.getD ""
  if header_image = "" then { st with skipped := st.skipped + 1 }
  else
    let filename := record_filename r
    if st.files.contains filename then { st with skipped := st.skipped + 1 }
    else if netOk header_image then
      { st with files := st.files ++ [filename], success := st.success + 1 }
    else { st with failed := st.failed + 1 }

/-- State of the metadata file: missing, unreadable/unparsable, or parsed
into a record list. -/
inductive MetaFile where
  | missing
  | unreadable
  | ok (records : List DlcRecord)

/-- The script's `main()` (lines 48-127): `False` when the metadata file is
missing or unreadable; otherwise process every record and return
`failed_count == 0` with the final tallies. -/
def download_main (netOk : String → Bool) (meta : MetaFile)
    (existing : List String) : Bool × DLState :=
  match meta with
  | .missing => (false, ⟨existing, 0, 0, 0⟩)
  | .unreadable => (false, ⟨existing, 0, 0, 0⟩)
  | .ok records =>
    let final := records.foldl (process_record netOk) ⟨existing, 0, 0, 0⟩
    (final.failed == 0, final)

/-- The `__main__` guard (lines 129-140): `sys.exit(0 if success else 1)`. -/
def download_exit_code (netOk : String → Bool) (meta : MetaFile)
    (existing : List String) : Nat :=
  if (download_main netOk meta existing).1 then 0 else 1

/-! ### Literal heap images used when evaluating concrete Config histories

The entry lists below are the heap cells produced by allocating the
`default_config` literal: the five section dicts land at addresses 0-4 and
the root dict references them. -/

/-- Heap cell of the `app` section dict. -/
def appCells : List (String × HVal) :=
  [("name", .prim (.str "ETS2 DLC Tools")), ("version", .prim (.str "1.0.0")),
    ("debug", .prim (.bool false))]

/-- Heap cell of the `window` section dict. -/
def windowCells : List (String × HVal) :=
  [("width", .prim (.num 1200)), ("height", .prim (.num 800)),
    ("x", .prim (.num 100)), ("y", .prim (.num 100)),
    ("maximized", .prim (.bool false))]

/-- Heap cell of the `logging` section dict. -/
def loggingCells : List (String × HVal) :=
  [("level", .prim (.str "INFO")), ("file", .prim (.str "logs/app.log")),
    ("max_size", .prim (.num 1048576)), ("backup_count", .prim (.num 5))]

/-- Heap cell of the `dlc` section dict. -/
def dlcCells : List (String × HVal) :=
  [("game_path", .prim (.str "")), ("mods_path", .prim (.str "")),
    ("backup_path", .prim (.str "backups")), ("auto_backup", .prim (.bool true))]

/-- Heap cell of the `ui` section dict. -/
def uiCells : List (String × HVal) :=
  [("theme", .prim (.str "light")), ("language", .prim (.str "zh_CN")),
    ("font_size", .prim (.num 12)), ("show_toolbar", .prim (.bool true)),
    ("show_statusbar", .prim (.bool true))]

/-- Heap cell of the `ui` section dict after `theme` was overridden in
place with `"dark"`. -/
def uiDarkCells : List (String × HVal) :=
  [("theme", .prim (.str "dark")), ("language", .prim (.str "zh_CN")),
    ("font_size", .prim (.num 12)), ("show_toolbar", .prim (.bool true)),
    ("show_statusbar", .prim (.bool true))]

/-- Heap cell of the root config dict, referencing the five sections. -/
def rootCells : List (String × HVal) :=
  [("app", .ref 0), ("window", .ref 1), ("logging", .ref 2), ("dlc", .ref 3),
    ("ui", .ref 4)]

/-! ## Theorems -/

/-! ### String primitive lemmas -/

/-- Characterization of the prefix test as list decomposition. -/
theorem prefixCheck_iff (p s : List Char) : prefixCheck p s = true ↔ ∃ t, s = p ++ t := by
  induction p generalizing s with
  | nil => simp [prefixCheck]
  | cons a as ih =>
    cases s with
    | nil => simp [prefixCheck]
    | cons c cs =>
      simp only [prefixCheck, Bool.and_eq_true, beq_iff_eq, ih, List.cons_append,
        List.cons.injEq]
      constructor
      · rintro ⟨rfl, t, rfl⟩
        exact ⟨t, rfl, rfl⟩
      · rintro ⟨t, rfl, rfl⟩
        exact ⟨rfl, t, rfl⟩

/-- Characterization of the suffix test as list decomposition. -/
theorem suffixCheck_iff (p s : List Char) : suffixCheck p s = true ↔ ∃ q, s = q ++ p := by
  rw [suffixCheck, prefixCheck_iff]
  constructor
  · rintro ⟨t, ht⟩
    refine ⟨t.reverse, ?_⟩
    have := congrArg List.reverse ht
    simpa using this
  · rintro ⟨q, rfl⟩
    exact ⟨q.reverse, by simp⟩

/-- Totality of the lexicographic string order. -/
theorem lexLe_total (a b : List Char) : lexLe a b = true ∨ lexLe b a = true := by
  induction a generalizing b with
  | nil => left; simp [lexLe]
  | cons a as ih =>
    cases b with
    | nil => right; simp [lexLe]
    | cons b bs =>
      by_cases h1 : a.toNat < b.toNat
      · left; simp [lexLe, h1]
      · by_cases h2 : b.toNat < a.toNat
        · right; simp [lexLe, h1, h2]
        · rcases ih bs with h | h
          · left; simp [lexLe, h1, h2, h]
          · right; simp [lexLe, h1, h2, h]

/-- Transitivity of the lexicographic string order. -/
theorem lexLe_trans (a b c : List Char) (h1 : lexLe a b = true) (h2 : lexLe b c = true) :
    lexLe a c = true := by
  induction a generalizing b c with
  | nil => simp [lexLe]
  | cons a as ih =>
    cases b with
    | nil => simp [lexLe] at h1
    | cons b bs =>
      cases c with
      | nil => simp [lexLe] at h2
      | cons c cs =>
        by_cases hab : a.toNat < b.toNat
        · by_cases hbc : b.toNat < c.toNat
          · have hac : a.toNat < c.toNat := lt_trans hab hbc
            simp [lexLe, hac]
          · by_cases hcb : c.toNat < b.toNat
            · simp [lexLe, hbc, hcb] at h2
            · have hac : a.toNat < c.toNat := by omega
              simp [lexLe, hac]
        · by_cases hba : b.toNat < a.toNat
          · simp [lexLe, hab, hba] at h1
          · have h1' : lexLe as bs = true := by simpa [lexLe, hab, hba] using h1
            by_cases hbc : b.toNat < c.toNat
            · have hac : a.toNat < c.toNat := by omega
              simp [lexLe, hac]
            · by_cases hcb : c.toNat < b.toNat
              · simp [lexLe, hbc, hcb] at h2
              · have h2' : lexLe bs cs = true := by simpa [lexLe, hbc, hcb] using h2
                have hac : ¬ a.toNat < c.toNat := by omega
                have hca : ¬ c.toNat < a.toNat := by omega
                simp [lexLe, hac, hca, ih bs cs h1' h2']

/-- Inserting into a list permutes to consing. -/
theorem insertName_perm (x : String) (l : List String) :
    List.Perm (insertName x l) (x :: l) := by
  induction l with
  | nil => exact List.Perm.refl _
  | cons y ys ih =>
    by_cases h : pyStrLe x y = true
    · simp [insertName, h]
    · simp only [insertName, h, if_neg, Bool.not_eq_true]
      exact (ih.cons y).trans (List.Perm.swap x y ys)

/-- Sorting permutes the input. -/
theorem pySorted_perm (l : List String) : List.Perm (pySorted l) l := by
  induction l with
  | nil => exact List.Perm.refl _
  | cons x xs ih => exact (insertName_perm x (pySorted xs)).trans (ih.cons x)

/-- Membership in an insertion. -/
theorem mem_insertName {a x : String} {l : List String} :
    a ∈ insertName x l ↔ a = x ∨ a ∈ l := by
  rw [(insertName_perm x l).mem_iff]
  simp

/-- Insertion preserves sortedness under the (total, transitive) string
order. -/
theorem pairwise_insertName (x : String) (l : List String)
    (hl : l.Pairwise (fun a b => pyStrLe a b = true)) :
    (insertName x l).Pairwise (fun a b => pyStrLe a b = true) := by
  induction l with
  | nil => simp [insertName]
  | cons y ys ih =>
    rcases List.pairwise_cons.mp hl with ⟨hy, hys⟩
    by_cases h : pyStrLe x y = true
    · simp only [insertName, h, if_pos]
      refine List.pairwise_cons.mpr ⟨?_, hl⟩
      intro z hz
      rcases List.mem_cons.mp hz with rfl | hz'
      · exact h
      · exact lexLe_trans _ _ _ h (hy z hz')
    · have h' : pyStrLe y x = true := by
        rcases lexLe_total x.data y.data with ht | ht
        · exact absurd ht h
        · exact ht
      simp only [insertName, h, if_neg, Bool.not_eq_true]
      refine List.pairwise_cons.mpr ⟨?_, ih hys⟩
      intro z hz
      rcases mem_insertName.mp hz with rfl | hz'
      · exact h'
      · exact hy z hz'

/-- The sort produces a list sorted under the string order. -/
theorem pairwise_pySorted (l : List String) :
    (pySorted l).Pairwise (fun a b => pyStrLe a b = true) := by
  induction l with
  | nil => simp [pySorted]
  | cons x xs ih => exact pairwise_insertName x (pySorted xs) ih

/-! ### Claim C5 -/

/-- C5: the DLC discovery predicate used for both directory listings holds
exactly when the filename, lowercased, starts with "dlc" and ends with
".scs"; the qualifying names are presented sorted alphabetically; and on
the input list ["dlc_core.scs", "DLC_Upgrade.SCS", "readme.txt",
"dlcmap.scsx"] the qualifying set is exactly the first two names. -/
theorem dlc_discovery_rule :
    (∀ (files : List String) (x : String),
        x ∈ displayed_dlc_files files ↔ x ∈ files ∧ is_dlc_file x = true)
    ∧ (∀ f : String, is_dlc_file f = true ↔
        ((∃ t, (pyLower f).data = "dlc".data ++ t)
          ∧ ∃ q, (pyLower f).data = q ++ ".scs".data))
    ∧ (∀ files : List String,
        (displayed_dlc_files files).Pairwise (fun a b => pyStrLe a b = true))
    ∧ displayed_dlc_files ["dlc_core.scs", "DLC_Upgrade.SCS", "readme.txt", "dlcmap.scsx"]
        = ["DLC_Upgrade.SCS", "dlc_core.scs"] := by
  refine ⟨?_, ?_, ?_, by decide⟩
  · intro files x
    rw [displayed_dlc_files, (pySorted_perm _).mem_iff, List.mem_filter]
  · intro f
    rw [is_dlc_file, Bool.and_eq_true, pyStartsWith, pyEndsWith,
      prefixCheck_iff, suffixCheck_iff]
  · intro files
    exact pairwise_pySorted _

/-! ### Batch move loop lemmas -/

/-- A checked move loop never touches a source-head entry that is not among
its candidates: the loop commutes with consing that entry onto the source. -/
theorem runMoves_checked_lift (err : String → Bool) (cands : List String) (a : String)
    (src dst m o : List String) (ha : ∀ c ∈ cands, c ≠ a) :
    runMoves (checkedStep err) cands ⟨a :: src, dst, m, o⟩ =
      ⟨a :: (runMoves (checkedStep err) cands ⟨src, dst, m, o⟩).src,
        (runMoves (checkedStep err) cands ⟨src, dst, m, o⟩).dst,
        (runMoves (checkedStep err) cands ⟨src, dst, m, o⟩).moved,
        (runMoves (checkedStep err) cands ⟨src, dst, m, o⟩).overwritten⟩ := by
  induction cands generalizing src dst m o with
  | nil => rfl
  | cons c cs ih =>
    have hca : c ≠ a := ha c (List.mem_cons_self c cs)
    have hacons : (c ∈ a :: src) = (c ∈ src) := by
      simp [List.mem_cons, hca]
    have ha' : ∀ x ∈ cs, x ≠ a := fun x hx => ha x (List.mem_cons_of_mem c hx)
    simp only [runMoves]
    by_cases hsrc : c ∈ src
    · by_cases hdst : c ∈ dst
      · rw [show checkedStep err ⟨a :: src, dst, m, o⟩ c = ⟨a :: src, dst, m, o⟩ by
            simp [checkedStep, hacons, hsrc, hdst],
          show checkedStep err ⟨src, dst, m, o⟩ c = ⟨src, dst, m, o⟩ by
            simp [checkedStep, hsrc, hdst]]
        exact ih src dst m o ha'
      · by_cases herr : err c = true
        · rw [show checkedStep err ⟨a :: src, dst, m, o⟩ c = ⟨a :: src, dst, m, o⟩ by
              simp [checkedStep, hacons, hsrc, hdst, herr],
            show checkedStep err ⟨src, dst, m, o⟩ c = ⟨src, dst, m, o⟩ by
              simp [checkedStep, hsrc, hdst, herr]]
          exact ih src dst m o ha'
        · have hbeq : ¬ (a == c) = true := by simp [hca.symm]
          rw [show checkedStep err ⟨a :: src, dst, m, o⟩ c
                = ⟨a :: src.erase c, dst ++ [c], m ++ [c], o⟩ by
              simp [checkedStep, hacons, hsrc, hdst, herr, doMove,
                List.erase_cons_tail hbeq],
            show checkedStep err ⟨src, dst, m, o⟩ c
                = ⟨src.erase c, dst ++ [c], m ++ [c], o⟩ by
              simp [checkedStep, hsrc, hdst, herr, doMove]]
          exact ih (src.erase c) (dst ++ [c]) (m ++ [c]) o ha'
    · rw [show checkedStep err ⟨a :: src, dst, m, o⟩ c = ⟨a :: src, dst, m, o⟩ by
          simp [checkedStep, hacons, hsrc],
        show checkedStep err ⟨src, dst, m, o⟩ c = ⟨src, dst, m, o⟩ by
          simp [checkedStep, hsrc]]
      exact ih src dst m o ha'

/-- Same lifting property for the unchecked (uninstall-all) loop body. -/
theorem runMoves_unchecked_lift (err : String → Bool) (cands : List String) (a : String)
    (src dst m o : List String) (ha : ∀ c ∈ cands, c ≠ a) :
    runMoves (uncheckedStep err) cands ⟨a :: src, dst, m, o⟩ =
      ⟨a :: (runMoves (uncheckedStep err) cands ⟨src, dst, m, o⟩).src,
        (runMoves (uncheckedStep err) cands ⟨src, dst, m, o⟩).dst,
        (runMoves (uncheckedStep err) cands ⟨src, dst, m, o⟩).moved,
        (runMoves (uncheckedStep err) cands ⟨src, dst, m, o⟩).overwritten⟩ := by
  induction cands generalizing src dst m o with
  | nil => rfl
  | cons c cs ih =>
    have hca : c ≠ a := ha c (List.mem_cons_self c cs)
    have hacons : (c ∈ a :: src) = (c ∈ src) := by
      simp [List.mem_cons, hca]
    have ha' : ∀ x ∈ cs, x ≠ a := fun x hx => ha x (List.mem_cons_of_mem c hx)
    have hbeq : ¬ (a == c) = true := by simp [hca.symm]
    simp only [runMoves]
    by_cases hsrc : c ∈ src
    · by_cases herr : err c = true
      · rw [show uncheckedStep err ⟨a :: src, dst, m, o⟩ c = ⟨a :: src, dst, m, o⟩ by
            simp [uncheckedStep, hacons, hsrc, herr],
          show uncheckedStep err ⟨src, dst, m, o⟩ c = ⟨src, dst, m, o⟩ by
            simp [uncheckedStep, hsrc, herr]]
        exact ih src dst m o ha'
      · by_cases hdst : c ∈ dst
        · rw [show uncheckedStep err ⟨a :: src, dst, m, o⟩ c
                = ⟨a :: src.erase c, dst, m ++ [c], o ++ [c]⟩ by
              simp [uncheckedStep, hacons, hsrc, hdst, herr, overwriteMove,
                List.erase_cons_tail hbeq],
            show uncheckedStep err ⟨src, dst, m, o⟩ c
                = ⟨src.erase c, dst, m ++ [c], o ++ [c]⟩ by
              simp [uncheckedStep, hsrc, hdst, herr, overwriteMove]]
          exact ih (src.erase c) dst (m ++ [c]) (o ++ [c]) ha'
        · rw [show uncheckedStep err ⟨a :: src, dst, m, o⟩ c
                = ⟨a :: src.erase c, dst ++ [c], m ++ [c], o⟩ by
              simp [uncheckedStep, hacons, hsrc, hdst, herr, doMove,
                List.erase_cons_tail hbeq],
            show uncheckedStep err ⟨src, dst, m, o⟩ c
                = ⟨src.erase c, dst ++ [c], m ++ [c], o⟩ by
              simp [uncheckedStep, hsrc, hdst, herr, doMove]]
          exact ih (src.erase c) (dst ++ [c]) (m ++ [c]) o ha'
    · rw [show uncheckedStep err ⟨a :: src, dst, m, o⟩ c = ⟨a :: src, dst, m, o⟩ by
          simp [uncheckedStep, hacons, hsrc],
        show uncheckedStep err ⟨src, dst, m, o⟩ c = ⟨src, dst, m, o⟩ by
          simp [uncheckedStep, hsrc]]
      exact ih src dst m o ha'

/-- Running the checked loop over the qualifying files of a duplicate-free
source directory, with no qualifying file already at the destination and no
unexpected error, moves exactly the qualifying files, in order. -/
theorem runMoves_checked_filter (p : String → Bool) (g : List String) :
    ∀ (t m o : List String), g.Nodup → (∀ x ∈ g.filter p, x ∉ t) →
    runMoves (checkedStep noErr) (g.filter p) ⟨g, t, m, o⟩ =
      ⟨g.filter (fun x => !p x), t ++ g.filter p, m ++ g.filter p, o⟩ := by
  induction g with
  | nil => intro t m o _ _; simp [runMoves]
  | cons a g' ih =>
    intro t m o hnd hdisj
    rcases List.nodup_cons.mp hnd with ⟨hna, hnd'⟩
    by_cases hp : p a = true
    · have hfil : (a :: g').filter p = a :: g'.filter p := by
        simp [List.filter_cons, hp]
      have hfil' : (a :: g').filter (fun x => !p x) = g'.filter (fun x => !p x) := by
        simp [List.filter_cons, hp]
      have hat : a ∉ t := hdisj a (by rw [hfil]; exact List.mem_cons_self a _)
      rw [hfil]
      simp only [runMoves]
      rw [show checkedStep noErr ⟨a :: g', t, m, o⟩ a = ⟨g', t ++ [a], m ++ [a], o⟩ by
        simp [checkedStep, hat, noErr, doMove]]
      rw [ih (t ++ [a]) (m ++ [a]) o hnd' ?_]
      · rw [hfil']
        simp
      · intro x hx
        have hxg : x ∈ g' := List.mem_of_mem_filter hx
        have hxt : x ∉ t := hdisj x (by rw [hfil]; exact List.mem_cons_of_mem a hx)
        simp only [List.mem_append, List.mem_singleton]
        rintro (h | rfl)
        · exact hxt h
        · exact hna hxg
    · have hfil : (a :: g').filter p = g'.filter p := by
        simp [List.filter_cons, hp]
      have hfil' : (a :: g').filter (fun x => !p x) = a :: g'.filter (fun x => !p x) := by
        simp [List.filter_cons, hp]
      rw [hfil]
      rw [runMoves_checked_lift noErr (g'.filter p) a g' t m o ?_]
      · rw [ih t m o hnd' (fun x hx => hdisj x (by rw [hfil]; exact hx))]
        rw [hfil']
      · intro c hc
        intro hca
        subst hca
        exact hp (List.of_mem_filter hc)

/-- Same result for the unchecked loop: when nothing qualifying is already
present at the destination, no overwrite can occur and the unchecked loop
behaves exactly like the checked one. -/
theorem runMoves_unchecked_filter (p : String → Bool) (g : List String) :
    ∀ (t m o : List String), g.Nodup → (∀ x ∈ g.filter p, x ∉ t) →
    runMoves (uncheckedStep noErr) (g.filter p) ⟨g, t, m, o⟩ =
      ⟨g.filter (fun x => !p x), t ++ g.filter p, m ++ g.filter p, o⟩ := by
  induction g with
  | nil => intro t m o _ _; simp [runMoves]
  | cons a g' ih =>
    intro t m o hnd hdisj
    rcases List.nodup_cons.mp hnd with ⟨hna, hnd'⟩
    by_cases hp : p a = true
    · have hfil : (a :: g').filter p = a :: g'.filter p := by
        simp [List.filter_cons, hp]
      have hfil' : (a :: g').filter (fun x => !p x) = g'.filter (fun x => !p x) := by
        simp [List.filter_cons, hp]
      have hat : a ∉ t := hdisj a (by rw [hfil]; exact List.mem_cons_self a _)
      rw [hfil]
      simp only [runMoves]
      rw [show uncheckedStep noErr ⟨a :: g', t, m, o⟩ a = ⟨g', t ++ [a], m ++ [a], o⟩ by
        simp [uncheckedStep, hat, noErr, doMove]]
      rw [ih (t ++ [a]) (m ++ [a]) o hnd' ?_]
      · rw [hfil']
        simp
      · intro x hx
        have hxg : x ∈ g' := List.mem_of_mem_filter hx
        have hxt : x ∉ t := hdisj x (by rw [hfil]; exact List.mem_cons_of_mem a hx)
        simp only [List.mem_append, List.mem_singleton]
        rintro (h | rfl)
        · exact hxt h
        · exact hna hxg
    · have hfil : (a :: g').filter p = g'.filter p := by
        simp [List.filter_cons, hp]
      have hfil' : (a :: g').filter (fun x => !p x) = a :: g'.filter (fun x => !p x) := by
        simp [List.filter_cons, hp]
      rw [hfil]
      rw [runMoves_unchecked_lift noErr (g'.filter p) a g' t m o ?_]
      · rw [ih t m o hnd' (fun x hx => hdisj x (by rw [hfil]; exact hx))]
        rw [hfil']
      · intro c hc
        intro hca
        subst hca
        exact hp (List.of_mem_filter hc)

/-- Refiltering interactions between a predicate and its negation. -/
theorem filter_filter_aux (p : String → Bool) (l : List String) :
    (l.filter p).filter p = l.filter p
      ∧ (l.filter (fun x => !p x)).filter p = []
      ∧ (l.filter p).filter (fun x => !p x) = [] := by
  refine ⟨?_, ?_, ?_⟩
  · induction l with
    | nil => simp
    | cons a l ih =>
      by_cases hp : p a = true <;> simp [List.filter_cons, hp, ih]
  · induction l with
    | nil => simp
    | cons a l ih =>
      by_cases hp : p a = true <;> simp [List.filter_cons, hp, ih]
  · induction l with
    | nil => simp
    | cons a l ih =>
      by_cases hp : p a = true <;> simp [List.filter_cons, hp, ih]

/-! ### Claim C1 -/

/-- C1 counterexample: in `uninstall_all_dlcs` a qualifying file whose name
already exists in `temp_dlcs` is NOT skipped: the existing destination file
is overwritten and the file is counted as moved, contrary to the claimed
per-file rule. -/
theorem uninstall_all_overwrites_cex :
    (uninstall_all_dlcs noErr true ⟨true, true, ["dlc_a.scs"], ["dlc_a.scs"]⟩).overwritten
        = ["dlc_a.scs"]
    ∧ (uninstall_all_dlcs noErr true ⟨true, true, ["dlc_a.scs"], ["dlc_a.scs"]⟩).moved
        = ["dlc_a.scs"]
    ∧ (uninstall_all_dlcs noErr true ⟨true, true, ["dlc_a.scs"], ["dlc_a.scs"]⟩).fs
        = ⟨true, true, [], ["dlc_a.scs"]⟩ := by
  decide

/-- C1 (amended): per-file rules of the batch move loops.  A missing source
file is skipped without being counted, in every operation; a same-named
existing destination file causes a skip without overwrite in the three
checked operations (uninstall-selected, install-selected, install-all), but
in uninstall-all it is overwritten and the file counted as moved; an error
while moving one file leaves the state unchanged for that file only, and a
batch always continues with the remaining candidates. -/
theorem dlc_per_file_move_rules :
    (∀ (e : String → Bool) (ms : MoveState) (n : String), n ∉ ms.src →
        checkedStep e ms n = ms ∧ uncheckedStep e ms n = ms)
    ∧ (∀ (e : String → Bool) (ms : MoveState) (n : String), n ∈ ms.src → n ∈ ms.dst →
        checkedStep e ms n = ms)
    ∧ (∀ (e : String → Bool) (ms : MoveState) (n : String), e n = false →
        n ∈ ms.src → n ∈ ms.dst →
        uncheckedStep e ms n =
          ⟨ms.src.erase n, ms.dst, ms.moved ++ [n], ms.overwritten ++ [n]⟩)
    ∧ (∀ (e : String → Bool) (ms : MoveState) (n : String), e n = true →
        checkedStep e ms n = ms ∧ uncheckedStep e ms n = ms)
    ∧ (∀ (stp : MoveState → String → MoveState) (cs1 cs2 : List String) (ms : MoveState),
        runMoves stp (cs1 ++ cs2) ms = runMoves stp cs2 (runMoves stp cs1 ms)) := by
  refine ⟨?_, ?_, ?_, ?_, ?_⟩
  · intro e ms n hn
    constructor
    · simp [checkedStep, hn]
    · simp [uncheckedStep, hn]
  · intro e ms n hsrc hdst
    simp [checkedStep, hsrc, hdst]
  · intro e ms n he hsrc hdst
    simp [uncheckedStep, hsrc, hdst, he, overwriteMove]
  · intro e ms n he
    constructor
    · by_cases hsrc : n ∈ ms.src
      · by_cases hdst : n ∈ ms.dst
        · simp [checkedStep, hsrc, hdst]
        · simp [checkedStep, hsrc, hdst, he]
      · simp [checkedStep, hsrc]
    · by_cases hsrc : n ∈ ms.src
      · simp [uncheckedStep, hsrc, he]
      · simp [uncheckedStep, hsrc]
  · intro stp cs1 cs2 ms
    induction cs1 generalizing ms with
    | nil => rfl
    | cons c cs ih => simp [runMoves, ih]

/-- C1 witness: the per-file rules applied at concrete inputs. -/
theorem dlc_per_file_move_rules_witness :
    checkedStep noErr ⟨["dlc_a.scs"], [], [], []⟩ "dlc_b.scs" = ⟨["dlc_a.scs"], [], [], []⟩
    ∧ checkedStep noErr ⟨["dlc_a.scs"], ["dlc_a.scs"], [], []⟩ "dlc_a.scs"
        = ⟨["dlc_a.scs"], ["dlc_a.scs"], [], []⟩
    ∧ uncheckedStep noErr ⟨["dlc_a.scs"], ["dlc_a.scs"], [], []⟩ "dlc_a.scs"
        = ⟨[], ["dlc_a.scs"], ["dlc_a.scs"], ["dlc_a.scs"]⟩ :=
  ⟨(dlc_per_file_move_rules.1 noErr ⟨["dlc_a.scs"], [], [], []⟩ "dlc_b.scs" (by decide)).1,
    dlc_per_file_move_rules.2.1 noErr ⟨["dlc_a.scs"], ["dlc_a.scs"], [], []⟩ "dlc_a.scs"
      (by decide) (by decide),
    dlc_per_file_move_rules.2.2.1 noErr ⟨["dlc_a.scs"], ["dlc_a.scs"], [], []⟩ "dlc_a.scs"
      rfl (by decide) (by decide)⟩

/-! ### Claim C2 -/

/-- C2: uninstall-all / install-all round trip.  Starting from a
duplicate-free game directory holding exactly 3 qualifying DLC files and no
`temp_dlcs` subfolder, a confirmed uninstall-all leaves 0 qualifying files
in the game directory and exactly those 3 filenames in `temp_dlcs`, and a
subsequent confirmed install-all restores the original split exactly. -/
theorem uninstall_install_round_trip (st : FsState)
    (hv : st.gameValid = true) (ht : st.tempExists = false)
    (hnd : st.game.Nodup) (h3 : (st.game.filter is_dlc_file).length = 3) :
    (uninstall_all_dlcs noErr true st).fs.game.filter is_dlc_file = []
    ∧ (uninstall_all_dlcs noErr true st).fs.game
        = st.game.filter (fun f => !is_dlc_file f)
    ∧ (uninstall_all_dlcs noErr true st).fs.temp = st.game.filter is_dlc_file
    ∧ (uninstall_all_dlcs noErr true st).fs.temp.length = 3
    ∧ (install_all_dlcs noErr true (uninstall_all_dlcs noErr true st).fs).fs.temp = []
    ∧ (install_all_dlcs noErr true (uninstall_all_dlcs noErr true st).fs).fs.game.filter
        is_dlc_file = st.game.filter is_dlc_file
    ∧ ((install_all_dlcs noErr true (uninstall_all_dlcs noErr true st).fs).fs.game.filter
        is_dlc_file).length = 3
    ∧ List.Perm
        (install_all_dlcs noErr true (uninstall_all_dlcs noErr true st).fs).fs.game
        st.game := by
  obtain ⟨gv, te, g, t⟩ := st
  simp only at hv ht hnd h3 ⊢
  subst hv
  subst ht
  have hne : (g.filter is_dlc_file).isEmpty = false := by
    cases hfe : g.filter is_dlc_file with
    | nil => rw [hfe] at h3; simp at h3
    | cons a l => simp
  have hrun := runMoves_unchecked_filter is_dlc_file g [] [] [] hnd
    (by intro x _ h; simp at h)
  have h1 : uninstall_all_dlcs noErr true ⟨true, false, g, t⟩
      = ⟨⟨true, true, g.filter (fun x => !is_dlc_file x), g.filter is_dlc_file⟩,
          g.filter is_dlc_file, []⟩ := by
    simp only [uninstall_all_dlcs, mkTempDir]
    simp [hne, hrun]
  have hfl := filter_filter_aux is_dlc_file g
  have hnd2 : (g.filter is_dlc_file).Nodup := hnd.filter _
  have hne2 : ((g.filter is_dlc_file).filter is_dlc_file).isEmpty = false := by
    rw [hfl.1]; exact hne
  have hdisj2 : ∀ x ∈ (g.filter is_dlc_file).filter is_dlc_file,
      x ∉ g.filter (fun x => !is_dlc_file x) := by
    intro x hx hmem
    have hpx : is_dlc_file x = true := (List.mem_filter.mp hx).2
    have hnx : (!is_dlc_file x) = true := (List.mem_filter.mp hmem).2
    rw [hpx] at hnx
    simp at hnx
  have hrun2 := runMoves_checked_filter is_dlc_file (g.filter is_dlc_file)
    (g.filter (fun x => !is_dlc_file x)) [] [] hnd2 hdisj2
  rw [hfl.1] at hrun2
  have hgne : g.filter is_dlc_file ≠ [] := by
    intro h
    rw [h] at h3
    simp at h3
  have hex : ¬ (∀ a ∈ g, is_dlc_file a = false) := by
    intro hall
    cases hfe : g.filter is_dlc_file with
    | nil => exact hgne hfe
    | cons a l =>
      have ha : a ∈ g.filter is_dlc_file := by
        rw [hfe]
        exact List.mem_cons_self a l
      have hm := List.mem_filter.mp ha
      exact absurd hm.2 (by simp [hall a hm.1])
  have h2 : install_all_dlcs noErr true
      ⟨true, true, g.filter (fun x => !is_dlc_file x), g.filter is_dlc_file⟩
      = ⟨⟨true, true, g.filter (fun x => !is_dlc_file x) ++ g.filter is_dlc_file, []⟩,
          g.filter is_dlc_file, []⟩ := by
    simp only [install_all_dlcs]
    simp [hne, hne2, hgne, hex, hrun2, hfl.1, hfl.2.1, hfl.2.2]
  refine ⟨?_, ?_, ?_, ?_, ?_, ?_, ?_, ?_⟩ <;>
    simp only [h1, h2, List.filter_append, List.nil_append, hfl.1, hfl.2.1, hfl.2.2, h3]
  exact List.perm_append_comm.trans (List.filter_append_perm is_dlc_file g)

/-- C2 witness: the round trip on a concrete directory of three DLC
files. -/
theorem uninstall_install_round_trip_witness :
    (uninstall_all_dlcs noErr true
        ⟨true, false, ["dlc_a.scs", "dlc_b.scs", "dlc_c.scs"], []⟩).fs.temp
      = ["dlc_a.scs", "dlc_b.scs", "dlc_c.scs"]
    ∧ List.Perm
        (install_all_dlcs noErr true
          (uninstall_all_dlcs noErr true
            ⟨true, false, ["dlc_a.scs", "dlc_b.scs", "dlc_c.scs"], []⟩).fs).fs.game
        ["dlc_a.scs", "dlc_b.scs", "dlc_c.scs"] := by
  have h := uninstall_install_round_trip
    ⟨true, false, ["dlc_a.scs", "dlc_b.scs", "dlc_c.scs"], []⟩
    rfl rfl (by decide) (by decide)
  exact ⟨by rw [h.2.2.1]; decide, h.2.2.2.2.2.2.2⟩

/-! ### Claim C8 -/

/-- C8 counterexample: with a valid game directory containing zero
qualifying DLC files and no `temp_dlcs` subfolder, uninstall-all is not a
pure no-op: it creates the `temp_dlcs` subfolder inside the game
directory. -/
theorem uninstall_all_creates_temp_cex :
    (uninstall_all_dlcs noErr true ⟨true, false, ["readme.txt"], []⟩).fs.tempExists = true
    ∧ (⟨true, false, ["readme.txt"], []⟩ : FsState).tempExists = false := by
  decide

/-- C8 (amended): when the game path resolves to an existing directory with
zero qualifying DLC files, uninstall-all moves no files and leaves every
file unchanged, but it does create the `temp_dlcs` subfolder (if absent)
before detecting that there is nothing to move. -/
theorem uninstall_all_no_dlc_noop (e : String → Bool) (yes : Bool) (st : FsState)
    (hv : st.gameValid = true) (h0 : st.game.filter is_dlc_file = []) :
    uninstall_all_dlcs e yes st = ⟨mkTempDir st, [], []⟩
    ∧ (uninstall_all_dlcs e yes st).fs.game = st.game
    ∧ (uninstall_all_dlcs e yes st).moved = []
    ∧ (uninstall_all_dlcs e yes st).fs.tempExists = true := by
  have hmkg : (mkTempDir st).game = st.game := by
    rw [mkTempDir]
    split <;> rfl
  have hmkt : (mkTempDir st).tempExists = true := by
    rw [mkTempDir]
    split
    · next h => exact h
    · rfl
  have h1 : uninstall_all_dlcs e yes st = ⟨mkTempDir st, [], []⟩ := by
    rw [uninstall_all_dlcs, hv]
    simp only [Bool.true_eq_false, if_false]
    rw [if_pos]
    rw [hmkg, h0]
    rfl
  exact ⟨h1, by rw [h1, hmkg], by rw [h1], by rw [h1]; exact hmkt⟩

/-- C8 witness: the amended no-op statement at a concrete directory with no
qualifying files. -/
theorem uninstall_all_no_dlc_noop_witness :
    uninstall_all_dlcs noErr true ⟨true, false, ["readme.txt"], []⟩
      = ⟨⟨true, true, ["readme.txt"], []⟩, [], []⟩
    ∧ (uninstall_all_dlcs noErr true ⟨true, false, ["readme.txt"], []⟩).fs.game
      = ["readme.txt"] := by
  have h := uninstall_all_no_dlc_noop noErr true ⟨true, false, ["readme.txt"], []⟩
    rfl (by decide)
  refine ⟨?_, h.2.1⟩
  rw [h.1]
  decide

/-! ### Configuration merge lemmas -/

/-- Unfolding equation of the merge loop on an empty custom document. -/
theorem merge_items_nil (d : List (String × JValue)) : merge_items d [] = d := by
  rw [merge_items.eq_def]

/-- Unfolding equation of the merge loop on one custom entry. -/
theorem merge_items_cons (d : List (String × JValue)) (k : String) (v : JValue)
    (rest : List (String × JValue)) :
    merge_items d ((k, v) :: rest) =
      match lookupKey d k, v with
      | some (.obj dk), .obj vc =>
        merge_items (setKey d k (merge_config (.obj dk) (.obj vc))) rest
      | some _, _ => merge_items (setKey d k v) rest
      | none, _ => merge_items (setKey d k v) rest := by
  rw [merge_items.eq_def]

/-- Assignment preserves every existing key. -/
theorem mem_keys_setKey (x k : String) (v : JValue) (d : List (String × JValue))
    (hx : x ∈ d.map Prod.fst) : x ∈ (setKey d k v).map Prod.fst := by
  induction d with
  | nil => simp at hx
  | cons kv rest ih =>
    obtain ⟨k1, w⟩ := kv
    by_cases h : k1 = k
    · simpa [setKey, h] using hx
    · rcases List.mem_cons.mp hx with h1 | h1
      · simp [setKey, h, h1]
      · simp [setKey, h, ih h1]

/-- Lookup after assigning the same key. -/
theorem lookupKey_setKey_self (d : List (String × JValue)) (k : String) (v : JValue) :
    lookupKey (setKey d k v) k = some v := by
  induction d with
  | nil => simp [setKey, lookupKey]
  | cons kv rest ih =>
    obtain ⟨k1, w⟩ := kv
    by_cases h : k1 = k
    · simp [setKey, h, lookupKey]
    · simp [setKey, h, lookupKey, ih]

/-- Lookup of a different key is unchanged by assignment. -/
theorem lookupKey_setKey_ne (d : List (String × JValue)) (k : String) (v : JValue)
    (k' : String) (h : k ≠ k') : lookupKey (setKey d k v) k' = lookupKey d k' := by
  induction d with
  | nil => simp [setKey, lookupKey, h]
  | cons kv rest ih =>
    obtain ⟨k1, w⟩ := kv
    by_cases h1 : k1 = k
    · subst h1
      simp [setKey, lookupKey, h]
    · by_cases h2 : k1 = k'
      · subst h2
        simp [setKey, h1, lookupKey]
      · simp [setKey, h1, lookupKey, h2, ih]

/-- Lookup misses exactly the absent keys. -/
theorem lookupKey_eq_none_iff (c : List (String × JValue)) (k : String) :
    lookupKey c k = none ↔ k ∉ c.map Prod.fst := by
  induction c with
  | nil => simp [lookupKey]
  | cons kv rest ih =>
    obtain ⟨k1, v⟩ := kv
    by_cases h : k1 = k
    · simp [lookupKey, h]
    · simp [lookupKey, h, ih, Ne.symm h]

/-- Merging never touches keys absent from the custom document. -/
theorem lookupKey_merge_items_not_mem (c : List (String × JValue)) :
    ∀ (d : List (String × JValue)) (k : String), k ∉ c.map Prod.fst →
    lookupKey (merge_items d c) k = lookupKey d k := by
  induction c with
  | nil => intro d k _; rw [merge_items_nil]
  | cons kv rest ih =>
    intro d k hk
    obtain ⟨k1, v1⟩ := kv
    have hk1 : k1 ≠ k := by
      intro h
      exact hk (by simp [h])
    have hkrest : k ∉ rest.map Prod.fst := by
      intro h
      exact hk (by simp [h])
    rw [merge_items_cons]
    split <;> rw [ih _ k hkrest, lookupKey_setKey_ne _ _ _ _ hk1]

/-- Merged value of a key overridden by the custom document: when both
sides hold nested dicts the defaults are merged recursively, otherwise the
custom value replaces the default. -/
theorem lookupKey_merge_items_obj (c : List (String × JValue)) :
    ∀ (d : List (String × JValue)) (k : String) (dv cv : List (String × JValue)),
    (c.map Prod.fst).Nodup →
    lookupKey c k = some (.obj cv) → lookupKey d k = some (.obj dv) →
    lookupKey (merge_items d c) k = some (merge_config (.obj dv) (.obj cv)) := by
  induction c with
  | nil => intro d k dv cv _ hc; simp [lookupKey] at hc
  | cons kv rest ih =>
    intro d k dv cv hnd hc hd
    obtain ⟨k1, v1⟩ := kv
    rw [List.map_cons] at hnd
    rcases List.nodup_cons.mp hnd with ⟨hk1rest, hndrest⟩
    by_cases hk : k1 = k
    · subst hk
      have hv1 : v1 = .obj cv := by
        simpa [lookupKey] using hc
      subst hv1
      rw [merge_items_cons]
      simp only [hd]
      rw [lookupKey_merge_items_not_mem rest _ _ hk1rest, lookupKey_setKey_self]
    · have hcrest : lookupKey rest k = some (.obj cv) := by
        simpa [lookupKey, hk] using hc
      rw [merge_items_cons]
      split <;>
        exact ih _ k dv cv hndrest hcrest
          (by rw [lookupKey_setKey_ne _ _ _ _ hk]; exact hd)

/-- Merged value of a key overridden by the custom document in the
non-matching cases: the custom value is assigned as is. -/
theorem lookupKey_merge_items_assign (c : List (String × JValue)) :
    ∀ (d : List (String × JValue)) (k : String) (v : JValue),
    (c.map Prod.fst).Nodup →
    lookupKey c k = some v →
    (∀ cv, v = .obj cv → ∀ dv, lookupKey d k ≠ some (.obj dv)) →
    lookupKey (merge_items d c) k = some v := by
  induction c with
  | nil => intro d k v _ hc; simp [lookupKey] at hc
  | cons kv rest ih =>
    intro d k v hnd hc hside
    obtain ⟨k1, v1⟩ := kv
    rw [List.map_cons] at hnd
    rcases List.nodup_cons.mp hnd with ⟨hk1rest, hndrest⟩
    by_cases hk : k1 = k
    · subst hk
      have hv1 : v1 = v := by
        simpa [lookupKey] using hc
      subst hv1
      rw [merge_items_cons]
      split
      · next dk vc heq =>
        exact absurd heq (hside vc rfl dk)
      · next heq _ =>
        rw [lookupKey_merge_items_not_mem rest _ _ hk1rest, lookupKey_setKey_self]
      · next heq _ =>
        rw [lookupKey_merge_items_not_mem rest _ _ hk1rest, lookupKey_setKey_self]
    · have hcrest : lookupKey rest k = some v := by
        simpa [lookupKey, hk] using hc
      rw [merge_items_cons]
      split <;>
        exact ih _ k v hndrest hcrest
          (fun cv hcv dv => by rw [lookupKey_setKey_ne _ _ _ _ hk]; exact hside cv hcv dv)

/-- Merging preserves every key of the default record. -/
theorem mem_keys_merge_items (c : List (String × JValue)) :
    ∀ (d : List (String × JValue)) (x : String),
    x ∈ d.map Prod.fst → x ∈ (merge_items d c).map Prod.fst := by
  induction c with
  | nil => intro d x hx; rw [merge_items_nil]; exact hx
  | cons kv rest ih =>
    intro d x hx
    obtain ⟨k1, v1⟩ := kv
    rw [merge_items_cons]
    split <;> exact ih _ x (mem_keys_setKey _ _ _ _ hx)

/-! ### Claim C3 -/

/-- C3: the record produced at construction from a JSON object document
contains every key of the default record, the on-disk values are
deep-merged over the defaults per matching nested mapping (an untouched key
keeps its default, matching nested dicts merge recursively, any other
override replaces the default value), and in particular the defaults merged
with `{"ui": {"theme": "dark"}}` equal the defaults except that `ui.theme`
is `"dark"`. -/
theorem config_merge_invariant :
    (∀ (kvs : List (String × JValue)),
        load_config (.doc kvs) = .obj (merge_items default_config_items kvs))
    ∧ (∀ (d c : List (String × JValue)) (x : String),
        x ∈ d.map Prod.fst → x ∈ (merge_items d c).map Prod.fst)
    ∧ (∀ (d c : List (String × JValue)) (k : String), (c.map Prod.fst).Nodup →
        (lookupKey c k = none → lookupKey (merge_items d c) k = lookupKey d k)
        ∧ (∀ dv cv, lookupKey c k = some (.obj cv) → lookupKey d k = some (.obj dv) →
            lookupKey (merge_items d c) k = some (merge_config (.obj dv) (.obj cv)))
        ∧ (∀ v, lookupKey c k = some v →
            (∀ cv, v = .obj cv → ∀ dv, lookupKey d k ≠ some (.obj dv)) →
            lookupKey (merge_items d c) k = some v))
    ∧ load_config (.doc [("ui", .obj [("theme", .str "dark")])])
        = .obj [("app", .obj [("name", .str "ETS2 DLC Tools"),
            ("version", .str "1.0.0"), ("debug", .bool false)]),
          ("window", .obj [("width", .num 1200), ("height", .num 800),
            ("x", .num 100), ("y", .num 100), ("maximized", .bool false)]),
          ("logging", .obj [("level", .str "INFO"), ("file", .str "logs/app.log"),
            ("max_size", .num 1048576), ("backup_count", .num 5)]),
          ("dlc", .obj [("game_path", .str ""), ("mods_path", .str ""),
            ("backup_path", .str "backups"), ("auto_backup", .bool true)]),
          ("ui", .obj [("theme", .str "dark"), ("language", .str "zh_CN"),
            ("font_size", .num 12), ("show_toolbar", .bool true),
            ("show_statusbar", .bool true)])] := by
  refine ⟨?_, ?_, ?_, ?_⟩
  · intro kvs
    simp [load_config, default_config, merge_config]
  · intro d c x hx
    exact mem_keys_merge_items c d x hx
  · intro d c k hnd
    refine ⟨?_, ?_, ?_⟩
    · intro hc
      exact lookupKey_merge_items_not_mem c d k ((lookupKey_eq_none_iff c k).mp hc)
    · intro dv cv hc hd
      exact lookupKey_merge_items_obj c d k dv cv hnd hc hd
    · intro v hc hside
      exact lookupKey_merge_items_assign c d k v hnd hc hside
  · simp only [load_config, default_config]
    simp only [merge_config]
    rw [merge_items_cons]
    simp [default_config_items, lookupKey, setKey, merge_config]
    rw [merge_items_cons]
    simp [lookupKey, setKey]
    rw [merge_items_nil, merge_items_nil]

/-- C3 witness: the merge clauses applied at concrete defaults and
documents. -/
theorem config_merge_invariant_witness :
    lookupKey (merge_items [("a", .num 1)] [("b", .num 2)]) "a" = some (.num 1)
    ∧ lookupKey (merge_items [("u", .obj [("x", .num 1)])] [("u", .obj [("y", .num 2)])]) "u"
        = some (merge_config (.obj [("x", .num 1)]) (.obj [("y", .num 2)]))
    ∧ lookupKey (merge_items [("a", .num 1)] [("a", .str "s")]) "a" = some (.str "s") := by
  refine ⟨?_, ?_, ?_⟩
  · have h := ((config_merge_invariant.2.2.1 [("a", .num 1)] [("b", .num 2)] "a"
      (by decide)).1 rfl)
    rw [h]
    rfl
  · exact (config_merge_invariant.2.2.1 [("u", .obj [("x", .num 1)])]
      [("u", .obj [("y", .num 2)])] "u" (by decide)).2.1 [("x", .num 1)]
      [("y", .num 2)] rfl rfl
  · exact (config_merge_invariant.2.2.1 [("a", .num 1)] [("a", .str "s")] "a"
      (by decide)).2.2 (.str "s") rfl
      (by intro cv hcv dv; cases hcv)

/-! ### Claim C4 -/

/-- Persisting does not change what the record reads back: save_config only
updates the `saved` snapshot. -/
theorem config_get_save_config (st : ConfigState) (p : String) (d : Option JValue) :
    config_get (save_config st) p d = config_get st p d := rfl

/-- Allocating the default literal lays out the five section dicts at
addresses 0-4 and returns the root entries referencing them. -/
theorem allocEntries_default :
    allocEntries [] default_config_items
      = ([appCells, windowCells, loggingCells, dlcCells, uiCells], rootCells) := by
  simp [default_config_items, allocEntries, allocTree, appCells, windowCells,
    loggingCells, dlcCells, uiCells, rootCells]

/-- C4 is refuted by the code: `merge_config` at construction and `set`
both mutate the nested section dicts that `self.default_config` still
references (its `.copy()` is shallow), so after a construction that merged
`{"ui": {"theme": "dark"}}`, `reset_to_default()` restores a record whose
`ui.theme` is still `"dark"`, not the literal default `"light"`.  The
second conjunct evaluates the untouched construction for contrast. -/
theorem reset_to_default_keeps_override :
    config_get (reset_to_default
        (config_construct (.doc [("ui", .obj [("theme", .str "dark")])])))
        "ui.theme" none = some (.str "dark")
    ∧ config_get (config_construct .absent) "ui.theme" none = some (.str "light")
    ∧ (JValue.str "dark") ≠ (JValue.str "light") := by
  have hC : config_construct (.doc [("ui", .obj [("theme", .str "dark")])])
      = ⟨[appCells, windowCells, loggingCells, dlcCells, uiDarkCells, rootCells,
          rootCells], 5, .ref 6, none⟩ := by
    simp only [config_construct, allocEntries_default]
    simp [shallowCopy, heapGet, mergeEntries, heapSet, lookupH, setH, allocTree,
      rootCells, uiCells, uiDarkCells, List.getD]
  have hA : config_construct .absent
      = ⟨[appCells, windowCells, loggingCells, dlcCells, uiCells, rootCells,
          rootCells], 5, .ref 6, none⟩ := by
    simp only [config_construct, allocEntries_default]
    simp [shallowCopy, heapGet, List.getD]
  refine ⟨?_, ?_, by simp⟩
  · rw [hC]
    have hR : config_get (reset_to_default ⟨[appCells, windowCells, loggingCells,
          dlcCells, uiDarkCells, rootCells, rootCells], 5, .ref 6, none⟩)
          "ui.theme" none
        = config_get ⟨[appCells, windowCells, loggingCells, dlcCells, uiDarkCells,
            rootCells, rootCells, rootCells], 5, .ref 7, none⟩ "ui.theme" none := by
      simp only [reset_to_default]
      rw [config_get_save_config]
      simp [shallowCopy, heapGet, List.getD]
    rw [hR]
    simp [config_get, getWalk, heapGet, lookupH, reifyV, pySplitDot, splitAtChar,
      rootCells, uiDarkCells, List.getD]
  · rw [hA]
    simp [config_get, getWalk, heapGet, lookupH, reifyV, pySplitDot, splitAtChar,
      rootCells, uiCells, List.getD]

/-! ### Claim C6 -/

/-- C6 counterexample: resolving a key whose leaf is the non-string value 5,
with no default supplied, returns `str(5) = "5"`, not the raw key string
`"a"` as claimed. -/
theorem tr_nonstring_leaf_cex :
    tr ⟨"zh_CN", .obj [("a", .num 5)]⟩ "a" none = "5"
    ∧ tr ⟨"zh_CN", .obj [("a", .num 5)]⟩ "a" none ≠ "a" := by
  have h : tr ⟨"zh_CN", .obj [("a", .num 5)]⟩ "a" none = "5" := by
    simp [tr, trWalk, pySplitDot, splitAtChar, lookupKey, pyOrStr]
    rw [pyStr]
    rfl
  exact ⟨h, by rw [h]; decide⟩

/-- C6 (amended): for a nonempty key, a missing dot-path returns the
supplied default (even an empty one) and otherwise the raw key string; a
path resolving to a non-string leaf does NOT return the raw key: it returns
the supplied default if that default is truthy, and otherwise Python
`str(value)` of the leaf. -/
theorem tr_fallback_rules (st : LMState) (key : String) (d : Option String)
    (hkey : key ≠ "") :
    (trWalk st.translations (pySplitDot key) = none →
        tr st key d = match d with
          | some s => s
          | none => key)
    ∧ (∀ v, trWalk st.translations (pySplitDot key) = some v →
        (∀ s, v ≠ JValue.str s) →
        tr st key d = pyOrStr d v) := by
  constructor
  · intro hw
    simp [tr, hkey, hw]
  · intro v hw hv
    cases v with
    | str s => exact absurd rfl (hv s)
    | null => simp [tr, hkey, hw]
    | bool b => simp [tr, hkey, hw]
    | num n => simp [tr, hkey, hw]
    | arr xs => simp [tr, hkey, hw]
    | obj kvs => simp [tr, hkey, hw]

/-- C6 witness: the amended fallback rules at concrete catalogs. -/
theorem tr_fallback_rules_witness :
    tr ⟨"zh_CN", .obj []⟩ "no.such.key" (some "X") = "X"
    ∧ tr ⟨"zh_CN", .obj []⟩ "no.such.key" none = "no.such.key"
    ∧ tr ⟨"zh_CN", .obj [("a", .num 5)]⟩ "a" (some "Y") = pyOrStr (some "Y") (.num 5) := by
  refine ⟨?_, ?_, ?_⟩
  · exact (tr_fallback_rules ⟨"zh_CN", .obj []⟩ "no.such.key" (some "X")
      (by decide)).1 rfl
  · exact (tr_fallback_rules ⟨"zh_CN", .obj []⟩ "no.such.key" none
      (by decide)).1 rfl
  · exact (tr_fallback_rules ⟨"zh_CN", .obj [("a", .num 5)]⟩ "a" (some "Y")
      (by decide)).2 (.num 5) rfl (by intro s h; cases h)

/-! ### Claim C7 -/

/-- C7: whenever load_language returns failure -- unsupported code, missing
file, or parse failure -- the active catalog and active language code are
both exactly what they were before the call; on success the code becomes
the requested one and the catalog becomes the parsed file content, replaced
together. -/
theorem load_language_atomic (fs : String → LangFile) (st : LMState) (code : String) :
    ((load_language fs st code).1 = false → (load_language fs st code).2 = st)
    ∧ ((load_language fs st code).1 = true →
        (load_language fs st code).2.current_language = code
        ∧ fs code = .ok (load_language fs st code).2.translations) := by
  by_cases hs : (supported_languages.map Prod.fst).contains code = false
  · have hres : load_language fs st code = (false, st) := by
      unfold load_language
      rw [hs, if_pos rfl]
    constructor
    · intro _
      rw [hres]
    · intro h
      rw [hres] at h
      simp at h
  · have hs' : (supported_languages.map Prod.fst).contains code = true := by
      cases hcv : (supported_languages.map Prod.fst).contains code
      · exact absurd hcv hs
      · rfl
    cases hf : fs code with
    | missing =>
      have hres : load_language fs st code = (false, st) := by
        unfold load_language
        rw [hs', if_neg (by simp), hf]
      constructor
      · intro _
        rw [hres]
      · intro h
        rw [hres] at h
        simp at h
    | invalid =>
      have hres : load_language fs st code = (false, st) := by
        unfold load_language
        rw [hs', if_neg (by simp), hf]
      constructor
      · intro _
        rw [hres]
      · intro h
        rw [hres] at h
        simp at h
    | ok catalog =>
      have hres : load_language fs st code = (true, ⟨code, catalog⟩) := by
        unfold load_language
        rw [hs', if_neg (by simp), hf]
      constructor
      · intro h
        rw [hres] at h
        simp at h
      · intro _
        simp [hres, hf]

/-- C7 witness: a failed load (missing file, and unsupported code "fr")
leaves the state untouched; a successful load of "en" replaces both
fields. -/
theorem load_language_atomic_witness :
    (load_language (fun _ => .missing) ⟨"zh_CN", .obj []⟩ "en").2 = ⟨"zh_CN", .obj []⟩
    ∧ (load_language (fun _ => .ok (.obj [("app_title", .str "T")]))
        ⟨"zh_CN", .obj []⟩ "fr").2 = ⟨"zh_CN", .obj []⟩
    ∧ (load_language (fun _ => .ok (.obj [("app_title", .str "T")]))
        ⟨"zh_CN", .obj []⟩ "en").2.current_language = "en"
    ∧ (fun _ => LangFile.ok (.obj [("app_title", .str "T")])) "en"
        = .ok (load_language (fun _ => .ok (.obj [("app_title", .str "T")]))
            ⟨"zh_CN", .obj []⟩ "en").2.translations := by
  refine ⟨?_, ?_, ?_, ?_⟩
  · exact (load_language_atomic (fun _ => .missing) ⟨"zh_CN", .obj []⟩ "en").1 rfl
  · exact (load_language_atomic (fun _ => .ok (.obj [("app_title", .str "T")]))
      ⟨"zh_CN", .obj []⟩ "fr").1 rfl
  · exact ((load_language_atomic (fun _ => .ok (.obj [("app_title", .str "T")]))
      ⟨"zh_CN", .obj []⟩ "en").2 rfl).1
  · exact ((load_language_atomic (fun _ => .ok (.obj [("app_title", .str "T")]))
      ⟨"zh_CN", .obj []⟩ "en").2 rfl).2

/-! ### Hot-reload handler lemmas -/

/-- A modify event inside the per-path debounce window is ignored. -/
theorem on_modified_skip (exts igns : List String) (st : HRState) (e : FsEvent)
    (hd : e.is_directory = false)
    (hig : should_ignore exts igns e.src_path = false)
    (hw : e.time - (lookupTime st.last_modified e.src_path).getD 0 < debounce_seconds) :
    on_modified exts igns st e = st := by
  simp [on_modified, hd, hig, hw]

/-- A modify event at or past the debounce window records the new time and
signals a restart. -/
theorem on_modified_signal (exts igns : List String) (st : HRState) (e : FsEvent)
    (hd : e.is_directory = false)
    (hig : should_ignore exts igns e.src_path = false)
    (hw : ¬ (e.time - (lookupTime st.last_modified e.src_path).getD 0
        < debounce_seconds)) :
    on_modified exts igns st e
      = ⟨setTime st.last_modified e.src_path e.time, true, st.signals + 1⟩ := by
  simp [on_modified, hd, hig, hw]

/-! ### Claim C9 -/

/-- C9 counterexample: create events are not debounced.  Two create events
for the same watched path 0.2 seconds apart trigger two restart signals;
the claim says the second event, inside the 0.5-second window of the first,
never triggers an additional one. -/
theorem created_events_not_debounced_cex :
    (runEvents default_extensions default_ignore_dirs
        [⟨.created, false, "main.py", 100⟩, ⟨.created, false, "main.py", 100.2⟩]
        initHR).signals = 2
    ∧ (runEvents default_extensions default_ignore_dirs
        [⟨.created, false, "main.py", 100⟩] initHR).signals = 1 := by
  constructor <;> rfl

/-- C9 (amended): only modify events are debounced.  For a watched,
non-ignored file path: a modify event within 0.5 seconds of the path's last
recorded modify time is ignored; the first modify event at or beyond the
window records the time and signals a restart (setting the pending-restart
flag); create and delete events always signal a restart, with no debounce.
In particular two modify events for one path 0.2 s apart yield exactly one
restart signal, and two events 0.8 s apart yield two. -/
theorem hot_reload_debounce_rules :
    (∀ (exts igns : List String) (st : HRState) (e : FsEvent),
        e.kind = .modified → e.is_directory = false →
        should_ignore exts igns e.src_path = false →
        e.time - (lookupTime st.last_modified e.src_path).getD 0 < debounce_seconds →
        handle_event exts igns st e = st)
    ∧ (∀ (exts igns : List String) (st : HRState) (e : FsEvent),
        e.kind = .modified → e.is_directory = false →
        should_ignore exts igns e.src_path = false →
        ¬ (e.time - (lookupTime st.last_modified e.src_path).getD 0
            < debounce_seconds) →
        handle_event exts igns st e
          = ⟨setTime st.last_modified e.src_path e.time, true, st.signals + 1⟩)
    ∧ (∀ (exts igns : List String) (st : HRState) (e : FsEvent),
        e.kind = .created ∨ e.kind = .deleted →
        e.is_directory = false →
        should_ignore exts igns e.src_path = false →
        handle_event exts igns st e = ⟨st.last_modified, true, st.signals + 1⟩)
    ∧ (runEvents default_extensions default_ignore_dirs
        [⟨.modified, false, "main.py", 100⟩, ⟨.modified, false, "main.py", 100.2⟩]
        initHR).signals = 1
    ∧ (runEvents default_extensions default_ignore_dirs
        [⟨.modified, false, "main.py", 100⟩, ⟨.modified, false, "main.py", 100.8⟩]
        initHR).signals = 2 := by
  have hig : should_ignore default_extensions default_ignore_dirs "main.py" = false := by
    decide
  have hstep1 : handle_event default_extensions default_ignore_dirs initHR
      ⟨.modified, false, "main.py", 100⟩ = ⟨[("main.py", 100)], true, 1⟩ := by
    rw [show handle_event default_extensions default_ignore_dirs initHR
        ⟨.modified, false, "main.py", 100⟩
        = on_modified default_extensions default_ignore_dirs initHR
          ⟨.modified, false, "main.py", 100⟩ from rfl]
    rw [on_modified_signal _ _ _ _ rfl hig
      (by norm_num [initHR, lookupTime, debounce_seconds])]
    simp [initHR, setTime]
  refine ⟨?_, ?_, ?_, ?_, ?_⟩
  · intro exts igns st e hk hd hig' hw
    rw [handle_event, hk]
    exact on_modified_skip exts igns st e hd hig' hw
  · intro exts igns st e hk hd hig' hw
    rw [handle_event, hk]
    exact on_modified_signal exts igns st e hd hig' hw
  · intro exts igns st e hk hd hig'
    rcases hk with hk | hk
    · rw [handle_event, hk]
      simp [on_created, hd, hig']
    · rw [handle_event, hk]
      simp [on_deleted, hd, hig']
  · rw [runEvents, runEvents, runEvents, hstep1]
    rw [show handle_event default_extensions default_ignore_dirs
        ⟨[("main.py", 100)], true, 1⟩ ⟨.modified, false, "main.py", 100.2⟩
        = on_modified default_extensions default_ignore_dirs
          ⟨[("main.py", 100)], true, 1⟩ ⟨.modified, false, "main.py", 100.2⟩ from rfl]
    rw [on_modified_skip _ _ _ _ rfl hig
      (by norm_num [lookupTime, debounce_seconds])]
  · rw [runEvents, runEvents, runEvents, hstep1]
    rw [show handle_event default_extensions default_ignore_dirs
        ⟨[("main.py", 100)], true, 1⟩ ⟨.modified, false, "main.py", 100.8⟩
        = on_modified default_extensions default_ignore_dirs
          ⟨[("main.py", 100)], true, 1⟩ ⟨.modified, false, "main.py", 100.8⟩ from rfl]
    rw [on_modified_signal _ _ _ _ rfl hig
      (by norm_num [lookupTime, debounce_seconds])]

/-- C9 witness: the debounce rules applied at concrete events. -/
theorem hot_reload_debounce_rules_witness :
    handle_event default_extensions default_ignore_dirs ⟨[("main.py", 100)], true, 1⟩
        ⟨.modified, false, "main.py", 100.2⟩ = ⟨[("main.py", 100)], true, 1⟩
    ∧ handle_event default_extensions default_ignore_dirs ⟨[("main.py", 100)], true, 1⟩
        ⟨.created, false, "main.py", 100.2⟩ = ⟨[("main.py", 100)], true, 2⟩ := by
  constructor
  · exact hot_reload_debounce_rules.1 default_extensions default_ignore_dirs
      ⟨[("main.py", 100)], true, 1⟩ ⟨.modified, false, "main.py", 100.2⟩
      rfl rfl (by decide) (by norm_num [lookupTime, debounce_seconds])
  · exact hot_reload_debounce_rules.2.2.1 default_extensions default_ignore_dirs
      ⟨[("main.py", 100)], true, 1⟩ ⟨.created, false, "main.py", 100.2⟩
      (Or.inl rfl) rfl (by decide)

/-! ### Claim C10 -/

/-- C10: the image-prefetch process exits 0 only if the per-record failure
count is zero; when the metadata file is found and parsed it exits 0
exactly when zero per-record failures occurred; records with an empty URL
and records whose destination file already exists count as skips, leaving
the failure count (and hence the exit status) untouched. -/
theorem download_exit_status (netOk : String → Bool) (meta : MetaFile)
    (existing : List String) :
    (download_exit_code netOk meta existing = 0 →
        (download_main netOk meta existing).2.failed = 0)
    ∧ (∀ records, meta = .ok records →
        (download_exit_code netOk meta existing = 0 ↔
          (download_main netOk meta existing).2.failed = 0))
    ∧ (∀ (st : DLState) (r : DlcRecord), r.header_image.getD "" = "" →
        process_record netOk st r = { st with skipped := st.skipped + 1 })
    ∧ (∀ (st : DLState) (r : DlcRecord), r.header_image.getD "" ≠ "" →
        st.files.contains (record_filename r) = true →
        process_record netOk st r = { st with skipped := st.skipped + 1 }) := by
  refine ⟨?_, ?_, ?_, ?_⟩
  · intro h
    cases meta with
    | missing => simp [download_exit_code, download_main] at h
    | unreadable => simp [download_exit_code, download_main] at h
    | ok records =>
      have hmain : (download_main netOk (.ok records) existing).1
          = ((download_main netOk (.ok records) existing).2.failed == 0) := rfl
      unfold download_exit_code at h
      simp only [hmain] at h
      cases hb : (download_main netOk (.ok records) existing).2.failed == 0 with
      | false => simp [hb] at h
      | true => simpa using hb
  · intro records hm
    subst hm
    have hmain : (download_main netOk (.ok records) existing).1
        = ((download_main netOk (.ok records) existing).2.failed == 0) := rfl
    constructor
    · intro h
      unfold download_exit_code at h
      simp only [hmain] at h
      cases hb : (download_main netOk (.ok records) existing).2.failed == 0 with
      | false => simp [hb] at h
      | true => simpa using hb
    · intro hf
      unfold download_exit_code
      simp only [hmain]
      have hb : ((download_main netOk (.ok records) existing).2.failed == 0) = true := by
        simp [hf]
      simp [hb]
  · intro st r h
    simp [process_record, h]
  · intro st r h hc
    have h' : ¬ (r.header_image.getD "" = "") := h
    have hm : record_filename r ∈ st.files := by simpa using hc
    simp [process_record, h', hm]

/-- C10 witness: the exit-status rules at a concrete metadata file holding
an empty-URL record, a record whose destination already exists, and a
successfully downloaded record. -/
theorem download_exit_status_witness :
    (download_exit_code (fun _ => true)
        (.ok [⟨some "A", some 1, some ""⟩, ⟨some "B", some 2, some "http_b"⟩,
          ⟨some "C", some 3, some "http_c"⟩]) ["2.jpg"] = 0
      ↔ (download_main (fun _ => true)
        (.ok [⟨some "A", some 1, some ""⟩, ⟨some "B", some 2, some "http_b"⟩,
          ⟨some "C", some 3, some "http_c"⟩]) ["2.jpg"]).2.failed = 0)
    ∧ process_record (fun _ => true) ⟨["2.jpg"], 0, 0, 0⟩ ⟨some "A", some 1, some ""⟩
        = ⟨["2.jpg"], 0, 0, 1⟩
    ∧ process_record (fun _ => true) ⟨["2.jpg"], 0, 0, 0⟩ ⟨some "B", some 2, some "http_b"⟩
        = ⟨["2.jpg"], 0, 0, 1⟩ := by
  refine ⟨?_, ?_, ?_⟩
  · exact (download_exit_status (fun _ => true) _ ["2.jpg"]).2.1 _ rfl
  · exact (download_exit_status (fun _ => true)
      (.ok []) ["2.jpg"]).2.2.1 ⟨["2.jpg"], 0, 0, 0⟩ ⟨some "A", some 1, some ""⟩ rfl
  · exact (download_exit_status (fun _ => true)
      (.ok []) ["2.jpg"]).2.2.2 ⟨["2.jpg"], 0, 0, 0⟩ ⟨some "B", some 2, some "http_b"⟩
      (by decide) (by decide)
